import Mathlib

/-!
Verification model of the react-pdf-editor field geometry and persistence
engine.  Definitions are shallow embeddings of the TypeScript source:

* `src/lib/PDFEditor.tsx` — field data model, registry mutations
  (`moveBuildModeField`, `resizeBuildModeField`, `updateBuildModeField`),
  the build-mode seeding effect, `getProgressData`, the assignment
  enforcement in `renderPages`, and the export conversion in `onSaveAs`.
* `src/lib/components/BuildModeFieldRenderer.tsx` — the corner-handle
  resize gesture (`handleResizeMouseDown`).
* `src/lib/components/Panels/ProgressPanel.tsx` — the panel's own
  assigned-field accounting.

JavaScript numbers are modelled as rationals (`ℚ`), `Math.round` as
`jsRound`, `Math.max` as `max`, and JavaScript objects used as string maps
as association lists.  All functions are total: operations that in the
source silently clamp or no-op are clamping/no-op total functions here,
and fallible decoding returns `Option`.
-/

namespace PdfEd

/-- `Math.round` in JavaScript: half-way values round toward positive
infinity, so `Math.round(q) = ⌊q + 1/2⌋`. -/
def jsRound (q : ℚ) : ℤ := ⌊q + 1 / 2⌋

/-- An option entry of a dropdown/radio field
(`ComboboxItem` in `PDFEditor.tsx`). -/
structure ComboboxItem where
  exportValue : String
  displayValue : String
deriving DecidableEq, Repr

/-- The six build-mode field types (`BuildModeFieldType`). -/
inductive BuildModeFieldType where
  | text
  | checkbox
  | dropdown
  | radio
  | multiline
  | signature
deriving DecidableEq, Repr

/-- Whether a field was discovered in the source document or created in
this session (`origin` in `BuildModeField`). -/
inductive FieldOrigin where
  | existing
  | new
deriving DecidableEq, Repr

/-- The `properties` sub-record of `BuildModeField`.  Every entry is
optional, as in the TypeScript interface. -/
structure FieldProperties where
  placeholder : Option String := none
  required : Option Bool := none
  defaultValue : Option String := none
  options : Option (List ComboboxItem) := none
  multiline : Option Bool := none
  fontSize : Option ℚ := none
  fontColor : Option String := none
  backgroundColor : Option String := none
  borderColor : Option String := none
  assignees : Option (List String) := none
deriving DecidableEq, Repr

/-- A field record owned by the registry (`BuildModeField` in
`PDFEditor.tsx`).  Geometry is in edit space: top-left origin, y
increasing downward. -/
structure BuildModeField where
  id : String
  type : BuildModeFieldType
  name : String
  x : ℚ
  y : ℚ
  width : ℚ
  height : ℚ
  page : ℤ
  origin : FieldOrigin
  originalId : Option String := none
  properties : FieldProperties
deriving DecidableEq, Repr

/-- `moveBuildModeField` (PDFEditor.tsx): maps over the registry, and for
the field whose id matches, clamps both coordinates to `≥ 0` via
`Math.max(0, ·)`.  Any other field — and the whole list when the id is
unknown — is returned unchanged. -/
def moveBuildModeField (fields : List BuildModeField) (fieldId : String)
    (x y : ℚ) : List BuildModeField :=
  fields.map fun field =>
    if field.id = fieldId then
      { field with x := max 0 x, y := max 0 y }
    else field

/-- `resizeBuildModeField` (PDFEditor.tsx): maps over the registry, and
for the field whose id matches, clamps both extents to `≥ 20` via
`Math.max(20, ·)`. -/
def resizeBuildModeField (fields : List BuildModeField) (fieldId : String)
    (width height : ℚ) : List BuildModeField :=
  fields.map fun field =>
    if field.id = fieldId then
      { field with width := max 20 width, height := max 20 height }
    else field

/-- `Partial<BuildModeField>`: every top-level key optional.  A JavaScript
object spread `{ ...field, ...updates }` takes each key from `updates`
when present there, else from `field`; `properties`, when present in
`updates`, replaces the whole sub-record. -/
structure BuildModeFieldUpdate where
  id : Option String := none
  type : Option BuildModeFieldType := none
  name : Option String := none
  x : Option ℚ := none
  y : Option ℚ := none
  width : Option ℚ := none
  height : Option ℚ := none
  page : Option ℤ := none
  origin : Option FieldOrigin := none
  originalId : Option (Option String) := none
  properties : Option FieldProperties := none
deriving DecidableEq, Repr

/-- The spread `{ ...field, ...updates }` from `updateBuildModeField`. -/
def applyUpdate (field : BuildModeField) (updates : BuildModeFieldUpdate) :
    BuildModeField where
  id := updates.id.getD field.id
  type := updates.type.getD field.type
  name := updates.name.getD field.name
  x := updates.x.getD field.x
  y := updates.y.getD field.y
  width := updates.width.getD field.width
  height := updates.height.getD field.height
  page := updates.page.getD field.page
  origin := updates.origin.getD field.origin
  originalId := updates.originalId.getD field.originalId
  properties := updates.properties.getD field.properties

/-- `updateBuildModeField` (PDFEditor.tsx): shallow merge of `updates`
into the matching field; unknown id leaves the list unchanged. -/
def updateBuildModeField (fields : List BuildModeField) (fieldId : String)
    (updates : BuildModeFieldUpdate) : List BuildModeField :=
  fields.map fun field =>
    if field.id = fieldId then applyUpdate field updates else field

/-- A sequence of resize operations, each applied through
`resizeBuildModeField`.  An operation is `(fieldId, width, height)`. -/
def applyResizeOps (ops : List (String × ℚ × ℚ))
    (fields : List BuildModeField) : List BuildModeField :=
  ops.foldl (fun fs op => resizeBuildModeField fs op.1 op.2.1 op.2.2) fields

/-! ### Raw document fields and pages (pdf.js side) -/

/-- A document-native field rectangle `[llx, lly, urx, ury]`: bottom-left
origin, y increasing upward. -/
structure Rect where
  llx : ℚ
  lly : ℚ
  urx : ℚ
  ury : ℚ
deriving DecidableEq, Repr

/-- Raw field types reported by pdf.js (`PDFFormRawField.type`). -/
inductive RawFieldType where
  | text
  | checkbox
  | combobox
  | radio
  | list
deriving DecidableEq, Repr

/-- A field descriptor enumerated from the source document
(`PDFFormRawField` in `PDFEditor.tsx`).  `value` and `defaultValue` are
strings ("Off"/"On" for checkboxes). -/
structure RawField where
  id : String
  name : String
  type : RawFieldType
  multiline : Bool
  page : ℤ
  rect : Rect
  value : String
  defaultValue : String
  items : Option (List ComboboxItem) := none
  editable : Bool := true
  hidden : Bool := false
deriving DecidableEq, Repr

/-- A loaded page with its (already editable-and-visible filtered) raw
form fields (`PDFPageAndFormFields`).  `pageHeight` is the height of the
page viewport at scale 1.0. -/
structure PageData where
  pageNumber : ℤ
  pageHeight : ℚ
  fields : List RawField
deriving DecidableEq, Repr

/-! ### JavaScript string-keyed objects as association lists -/

/-- JavaScript object assignment `obj[k] = v`: an existing key keeps its
position and gets the new value; a new key is appended (insertion
order). -/
def setKey {α : Type} (m : List (String × α)) (k : String) (v : α) :
    List (String × α) :=
  if m.any (fun p => p.1 = k) then
    m.map fun p => if p.1 = k then (k, v) else p
  else m ++ [(k, v)]

/-- The flattened assignment map: field name → participant-id list. -/
abbrev AssignmentMap := List (String × List String)

/-- Current form values keyed by field name. -/
abbrev FormFields := List (String × String)

/-- JavaScript `a || b` on strings: the empty string is falsy. -/
def jsOr (a b : String) : String := if a = "" then b else a

/-- `getAllFieldsValue` (PDFEditor.tsx): walks every page's fields and
records `field.value || field.defaultValue || ""` under the field's name
(fields with an empty name are skipped, since `if (field.name)` guards
the assignment). -/
def getAllFieldsValue (pages : List PageData) : FormFields :=
  pages.foldl
    (fun acc page =>
      page.fields.foldl
        (fun acc field =>
          if field.name ≠ "" then
            setKey acc field.name (jsOr field.value (jsOr field.defaultValue ""))
          else acc)
        acc)
    []

/-! ### Build-mode seeding (import conversion) -/

/-- One pushed record of the build-mode seeding effect (PDFEditor.tsx,
`useEffect` initializing `buildModeFields` from existing PDF fields):
type mapping, the native-to-edit geometry conversion
(`x = llx`, `y = pageHeight - ury`, `width = urx - llx`,
`height = ury - lly`), and the assignees extracted from metadata. -/
def seedFieldOfRaw (pageHeight : ℚ) (pageNumber : ℤ)
    (extracted : Option AssignmentMap) (field : RawField) : BuildModeField :=
  let mappedType : BuildModeFieldType :=
    if field.type = RawFieldType.checkbox then .checkbox
    else if field.type = RawFieldType.combobox then .dropdown
    else if field.type = RawFieldType.radio then .radio
    else if field.type = RawFieldType.list then .dropdown
    else if field.type = RawFieldType.text ∧ field.multiline = true then .multiline
    else .text
  { id := "existing_" ++ field.id
    originalId := some field.id
    origin := .existing
    type := mappedType
    name := field.name
    x := field.rect.llx
    y := pageHeight - field.rect.ury
    width := field.rect.urx - field.rect.llx
    height := field.rect.ury - field.rect.lly
    page := pageNumber - 1
    properties :=
      { placeholder := if field.type = RawFieldType.text then some field.name else none
        required := some false
        defaultValue := some field.value
        options := field.items
        multiline := some field.multiline
        fontSize := some 12
        assignees := some ((extracted.bind fun m => m.lookup field.name).getD []) } }

/-- The `initial` list built by the seeding effect: every page's fields in
order. -/
def buildInitialFields (extracted : Option AssignmentMap)
    (pages : List PageData) : List BuildModeField :=
  pages.flatMap fun page =>
    page.fields.map (seedFieldOfRaw page.pageHeight page.pageNumber extracted)

/-- The seeding effect's state transition on `buildModeFields`: a no-op
when the registry already has ≥ 1 record; otherwise the registry becomes
`initial` when that is non-empty (an empty `initial` leaves the empty
registry in place, since `setBuildModeFields` is only called when
`initial.length > 0`). -/
def seedFromExisting (pages : List PageData)
    (extracted : Option AssignmentMap) (fields : List BuildModeField) :
    List BuildModeField :=
  if fields.length > 0 then fields
  else
    let initial := buildInitialFields extracted pages
    if initial.length > 0 then initial else fields

/-! ### Export conversion (onSaveAs, build mode) -/

/-- The rectangle `onSaveAs` gives a rebuilt field: `pdfX = round(x)`,
`pdfY = round(pageHeight - y - height)`, extents rounded, and
`addToPage` places the widget at `[x, y, x+width, y+height]` in
document-native space. -/
def exportFieldRect (pageHeight : ℚ) (f : BuildModeField) : Rect :=
  let pdfX : ℤ := jsRound f.x
  let pdfY : ℤ := jsRound (pageHeight - f.y - f.height)
  let pdfWidth : ℤ := jsRound f.width
  let pdfHeight : ℤ := jsRound f.height
  { llx := pdfX, lly := pdfY, urx := pdfX + pdfWidth, ury := pdfY + pdfHeight }

/-- `onSaveAs` builds `fieldAssignmentsMap`: a field contributes its
`name → assignees` entry exactly when its assignees list is present and
non-empty. -/
def buildFieldAssignmentsMap (fields : List BuildModeField) : AssignmentMap :=
  fields.foldl
    (fun acc field =>
      match field.properties.assignees with
      | some assignees =>
        if assignees.length > 0 then setKey acc field.name assignees else acc
      | none => acc)
    []

/-! ### Assignment resolver (renderPages enforcement, progress) -/

/-- The `unassignedVisibility` prop. -/
inductive UnassignedVisibility where
  | readonly
  | hidden
deriving DecidableEq, Repr

/-- A field's effective interaction state in edit mode. -/
inductive InteractionState where
  | editable
  | disabled
  | hidden
deriving DecidableEq, Repr

/-- `extractedFieldAssignments.current || fieldAssignments`: the map
extracted from PDF metadata takes precedence over the caller-supplied
prop. -/
def effectiveAssignmentMap (extracted supplied : Option AssignmentMap) :
    Option AssignmentMap :=
  match extracted with
  | some m => some m
  | none => supplied

/-- The enforcement branch of `renderPages` (PDFEditor.tsx): with no
active participant the block does not run (field stays editable);
`assignedIds = effectiveAssignments?.[field.name]` missing defaults to
assigned; an entry not containing the participant hides the input under
the `hidden` policy and disables it under `readonly`. -/
def fieldInteractionState (activeParticipantId : Option String)
    (effective : Option AssignmentMap) (policy : UnassignedVisibility)
    (fieldName : String) : InteractionState :=
  match activeParticipantId with
  | none => .editable
  | some pid =>
    match effective.bind fun m => m.lookup fieldName with
    | none => .editable
    | some assignedIds =>
      if pid ∈ assignedIds then .editable
      else
        match policy with
        | .hidden => .hidden
        | .readonly => .disabled

/-- JavaScript `String.prototype.trim` whitespace (the characters
relevant here). -/
def isJsSpace (c : Char) : Bool :=
  c == ' ' || c == '\t' || c == '\n' || c == '\r' ||
    c == Char.ofNat 11 || c == Char.ofNat 12

/-- `value.trim()` on the character list. -/
def jsTrim (cs : List Char) : List Char :=
  ((cs.dropWhile isJsSpace).reverse.dropWhile isJsSpace).reverse

/-- The completion test `value && value.trim() !== "" && value !== "Off"`
shared by `getProgressData` and `ProgressPanel`; a missing value
(`undefined`) is falsy. -/
def isCompletedValue : Option String → Bool
  | none => false
  | some s => !(s == "") && !(jsTrim s.data == []) && !(s == "Off")

/-- `getProgressData` (PDFEditor.tsx): the assigned-field names for the
active participant — every entry of the effective map containing the
participant, or, when the effective map or the participant is missing,
all field names of the document. -/
def assignedFieldNames (formFields : FormFields)
    (effective : Option AssignmentMap) (activeParticipantId : Option String) :
    List String :=
  match effective, activeParticipantId with
  | some m, some pid =>
    (m.filter fun entry => entry.2.contains pid).map fun entry => entry.1
  | _, _ => formFields.map fun entry => entry.1

/-- `getProgressData`'s result: `(totalFields, completedFields)`. -/
def getProgressData (formFields : FormFields)
    (effective : Option AssignmentMap) (activeParticipantId : Option String) :
    Nat × Nat :=
  let names := assignedFieldNames formFields effective activeParticipantId
  (names.length,
    (names.filter fun n => isCompletedValue (formFields.lookup n)).length)

/-- `ProgressPanel`'s own `assignedFields` (ProgressPanel.tsx): entries of
`fieldAssignments` containing the active participant — and the empty
list when no `fieldAssignments` map is provided at all ("If no
fieldAssignments provided, show no assigned fields"). -/
def panelAssignedFields (fieldAssignments : Option AssignmentMap)
    (activeParticipantId : String) : List String :=
  match fieldAssignments with
  | some m =>
    (m.filter fun entry => entry.2.contains activeParticipantId).map
      fun entry => entry.1
  | none => []

/-- `ProgressPanel`'s `participantCompletedFields` count. -/
def panelCompletedCount (assigned : List String) (formFields : FormFields) :
    Nat :=
  (assigned.filter fun n => isCompletedValue (formFields.lookup n)).length

/-! ### Resize gesture (BuildModeFieldRenderer.tsx) -/

/-- The four corner resize handles. -/
inductive ResizeHandle where
  | topLeft
  | topRight
  | bottomLeft
  | bottomRight
deriving DecidableEq, Repr

/-- A field's frame (position and extents) in edit space. -/
structure FieldFrame where
  x : ℚ
  y : ℚ
  width : ℚ
  height : ℚ
deriving DecidableEq, Repr

/-- The switch in `handleResizeMouseDown`'s move handler: the new frame
requested for the gesture's cumulative deltas, per handle. -/
def computeResizeFrame (handle : ResizeHandle) (start : FieldFrame)
    (deltaX deltaY : ℚ) : FieldFrame :=
  match handle with
  | .bottomRight =>
    { start with width := start.width + deltaX, height := start.height + deltaY }
  | .bottomLeft =>
    { x := start.x + deltaX, y := start.y,
      width := start.width - deltaX, height := start.height + deltaY }
  | .topRight =>
    { x := start.x, y := start.y + deltaY,
      width := start.width + deltaX, height := start.height - deltaY }
  | .topLeft =>
    { x := start.x + deltaX, y := start.y + deltaY,
      width := start.width - deltaX, height := start.height - deltaY }

/-- One frame of the resize gesture: the values passed to
`onResize`/`onMove` when `newWidth >= 20 && newHeight >= 20`, and `none`
(frame rejected, movement still tracked from the gesture start) when
not. -/
def resizeFrame (handle : ResizeHandle) (start : FieldFrame)
    (deltaX deltaY : ℚ) : Option FieldFrame :=
  let g := computeResizeFrame handle start deltaX deltaY
  if 20 ≤ g.width ∧ 20 ≤ g.height then some g else none

/-- A resize-gesture frame applied through the registry: `onResize`
(always, when accepted) then `onMove` (for every handle but
`bottomRight`), exactly as `handleResizeMouseDown` calls them. -/
def applyResizeFrame (fields : List BuildModeField) (fieldId : String)
    (handle : ResizeHandle) (start : FieldFrame) (deltaX deltaY : ℚ) :
    List BuildModeField :=
  let g := computeResizeFrame handle start deltaX deltaY
  if 20 ≤ g.width ∧ 20 ≤ g.height then
    let resized := resizeBuildModeField fields fieldId g.width g.height
    match handle with
    | .bottomRight => resized
    | _ => moveBuildModeField resized fieldId g.x g.y
  else fields

/-! ### Assignment metadata side channel (document title)

`onSaveAs` stores `"REACT_PDF_EDITOR_ASSIGNMENTS:" + JSON.stringify(map)`
in the document title; `loadDocument` checks the title for that prefix
and `JSON.parse`s the remainder inside a `try`/`catch`, so a parse
failure only means "no metadata" and never propagates.  `JSON.stringify`
and `JSON.parse` are modelled concretely for the shape actually stored —
an object mapping string keys to arrays of strings — including JSON
string escaping; the parser accepts the canonical (whitespace-free) form
`JSON.stringify` emits and answers `none` (decode to a map failed) on
anything else.  Titles are character lists. -/

/-- Lower-case hex digit, as `JSON.stringify` emits in `\u00xx`. -/
def toHexDigitChar (n : Nat) : Char :=
  if n < 10 then Char.ofNat ('0'.toNat + n) else Char.ofNat ('a'.toNat + (n - 10))

/-- One character, JSON-escaped (`JSON.stringify` string rules): quote and
backslash get a backslash escape, the five named control characters get
their short escapes, other control characters get `\u00xx`, everything
else is literal. -/
def escapeChar (c : Char) : List Char :=
  if c = '"' then ['\\', '"']
  else if c = '\\' then ['\\', '\\']
  else if c = '\n' then ['\\', 'n']
  else if c = '\r' then ['\\', 'r']
  else if c = '\t' then ['\\', 't']
  else if c = Char.ofNat 8 then ['\\', 'b']
  else if c = Char.ofNat 12 then ['\\', 'f']
  else if c.toNat < 32 then
    ['\\', 'u', '0', '0', toHexDigitChar (c.toNat / 16), toHexDigitChar (c.toNat % 16)]
  else [c]

/-- A JSON string literal for `s`: quote, escaped characters, quote. -/
def serializeJString (s : String) : List Char :=
  '"' :: (s.data.flatMap escapeChar ++ ['"'])

/-- The characters of a JSON array of strings after the opening `[`. -/
def serializeItemsTail : List String → List Char
  | [] => [']']
  | [s] => serializeJString s ++ [']']
  | s :: r :: t => serializeJString s ++ ',' :: serializeItemsTail (r :: t)

/-- The characters of the JSON object after the opening brace: each
member is `"key":[...]`, comma-separated, then the closing brace. -/
def serializeMembersTail : AssignmentMap → List Char
  | [] => ['\x7d']
  | [(k, v)] => serializeJString k ++ ':' :: '[' :: (serializeItemsTail v ++ ['\x7d'])
  | (k, v) :: e :: t =>
    serializeJString k ++ ':' :: '[' ::
      (serializeItemsTail v ++ ',' :: serializeMembersTail (e :: t))

/-- `JSON.stringify` of an assignment map. -/
def serializeAssignmentsJson (m : AssignmentMap) : List Char :=
  '\x7b' :: serializeMembersTail m

/-- Value of a hex digit character. -/
def hexDigitVal (c : Char) : Option Nat :=
  if '0' ≤ c ∧ c ≤ '9' then some (c.toNat - '0'.toNat)
  else if 'a' ≤ c ∧ c ≤ 'f' then some (c.toNat - 'a'.toNat + 10)
  else if 'A' ≤ c ∧ c ≤ 'F' then some (c.toNat - 'A'.toNat + 10)
  else none

/-- The character denoted by a short JSON escape: `n`, `t`, `r`, `b`, `f`
name control characters, and quote, backslash and slash denote
themselves. -/
def unescapeChar (e : Char) : Option Char :=
  if e = 'n' then some '\n'
  else if e = 't' then some '\t'
  else if e = 'r' then some '\x0d'
  else if e = 'b' then some (Char.ofNat 8)
  else if e = 'f' then some (Char.ofNat 12)
  else if e = '"' ∨ e = '\\' ∨ e = '/' then some e
  else none

/-- Parse a JSON string body up to the closing quote; `acc` holds the
characters read so far, reversed. -/
def parseStringBody : List Char → List Char → Option (List Char × List Char)
  | _, [] => none
  | acc, '"' :: rest => some (acc.reverse, rest)
  | acc, '\\' :: 'u' :: h1 :: h2 :: h3 :: h4 :: rest =>
    match hexDigitVal h1, hexDigitVal h2, hexDigitVal h3, hexDigitVal h4 with
    | some a, some b, some c, some d =>
      parseStringBody (Char.ofNat (((a * 16 + b) * 16 + c) * 16 + d) :: acc) rest
    | _, _, _, _ => none
  | acc, '\\' :: e :: rest =>
    match unescapeChar e with
    | some c => parseStringBody (c :: acc) rest
    | none => none
  | acc, c :: rest => parseStringBody (c :: acc) rest

/-- Parse a JSON string literal. -/
def parseJString : List Char → Option (String × List Char)
  | '"' :: rest => (parseStringBody [] rest).map fun p => (String.mk p.1, p.2)
  | _ => none

/-- Parse the items of a non-empty JSON string array, up to and including
the closing `]`; `fuel` bounds the number of commas consumed. -/
def parseItems1 : Nat → List Char → Option (List String × List Char)
  | fuel, cs =>
    (parseJString cs).bind fun sr =>
      match sr.2 with
      | ']' :: rest2 => some ([sr.1], rest2)
      | ',' :: rest2 =>
        match fuel with
        | 0 => none
        | fuel' + 1 =>
          (parseItems1 fuel' rest2).bind fun lr => some (sr.1 :: lr.1, lr.2)
      | _ => none

/-- Parse a JSON string array after its opening `[`. -/
def parseItems (fuel : Nat) : List Char → Option (List String × List Char)
  | ']' :: rest => some ([], rest)
  | cs => parseItems1 fuel cs

/-- Parse the members of a non-empty JSON object of string arrays, up to
and including the closing brace. -/
def parseMembers1 : Nat → List Char → Option (AssignmentMap × List Char)
  | fuel, cs =>
    (parseJString cs).bind fun kr =>
      match kr.2 with
      | ':' :: '[' :: rest2 =>
        (parseItems rest2.length rest2).bind fun vr =>
          match vr.2 with
          | '\x7d' :: rest4 => some ([(kr.1, vr.1)], rest4)
          | ',' :: rest4 =>
            match fuel with
            | 0 => none
            | fuel' + 1 =>
              (parseMembers1 fuel' rest4).bind fun mr =>
                some ((kr.1, vr.1) :: mr.1, mr.2)
          | _ => none
      | _ => none

/-- Parse a JSON object of string arrays after its opening brace. -/
def parseMembers (fuel : Nat) : List Char → Option (AssignmentMap × List Char)
  | '\x7d' :: rest => some ([], rest)
  | cs => parseMembers1 fuel cs

/-- `JSON.parse` of an assignment map: the whole input must be one object
whose values are arrays of strings; anything else decodes to `none`. -/
def parseAssignmentsJson (cs : List Char) : Option AssignmentMap :=
  match cs with
  | '\x7b' :: rest =>
    match parseMembers rest.length rest with
    | some (m, []) => some m
    | _ => none
  | _ => none

/-- The recognizable metadata tag stored at the front of the title. -/
def assignmentsTag : List Char := "REACT_PDF_EDITOR_ASSIGNMENTS:".data

/-- `onSaveAs`: the title written in build mode. -/
def encodeAssignmentsTitle (m : AssignmentMap) : List Char :=
  assignmentsTag ++ serializeAssignmentsJson m

/-- `loadDocument`: a title starting with the tag has its remainder
parsed (`title.replace(tag, "")` drops the leading occurrence); any
failure — no tag, or unparsable remainder — yields no metadata, never an
error. -/
def decodeAssignmentsTitle (title : List Char) : Option AssignmentMap :=
  if title.take assignmentsTag.length = assignmentsTag then
    parseAssignmentsJson (title.drop assignmentsTag.length)
  else none

/-! ### Concrete sample values used by witnesses and counterexamples -/

/-- Default properties of a freshly dropped `text` field
(`addBuildModeField`). -/
def sampleProps : FieldProperties :=
  { placeholder := some "Enter text...", required := some false,
    fontSize := some 12, fontColor := some "#000000",
    backgroundColor := some "#ffffff", borderColor := some "#000000" }

/-- A `text` field dropped at edit-space (50, 50): default size 115 × 16. -/
def sampleField : BuildModeField :=
  { id := "a", type := .text, name := "text_1", x := 50, y := 50,
    width := 115, height := 16, page := 0, origin := .new,
    properties := sampleProps }

/-- `sampleField` after `resizeBuildModeField` with requested 5 × 100. -/
def resizedSampleField : BuildModeField :=
  { sampleField with width := 20, height := 100 }

/-- `sampleField` after `moveBuildModeField` to (-5, -7). -/
def movedSampleField : BuildModeField := { sampleField with x := 0, y := 0 }

/-- A field carrying a sibling property (`placeholder`) next to
`fontSize`. -/
def siblingField : BuildModeField :=
  { id := "a", type := .text, name := "t", x := 0, y := 0, width := 115,
    height := 16, page := 0, origin := .new,
    properties := { placeholder := some "keep me", fontSize := some 12 } }

/-- An update setting one property, as the claim's "update that sets one
property". -/
def siblingUpdate : BuildModeFieldUpdate :=
  { properties := some { fontSize := some 14 } }

/-- A field assigned to participant "2". -/
def keptField : BuildModeField :=
  { sampleField with
    name := "kept"
    properties := { assignees := some ["2"] } }

/-- A field with an explicitly empty assignees list. -/
def droppedField : BuildModeField :=
  { siblingField with
    name := "dropped"
    properties := { assignees := some [] } }

/-- The frame of `sampleField` (default text field size 115 × 16). -/
def sampleFrame : FieldFrame :=
  { x := 50, y := 50, width := 115, height := 16 }

/-- A raw field whose rectangle is `sampleField` exported onto a page of
height 792. -/
def sampleRaw : RawField :=
  { id := "f1", name := "text_1", type := .text, multiline := false,
    page := 0, rect := exportFieldRect 792 sampleField, value := "",
    defaultValue := "" }

/-! ### Helper lemmas -/

theorem map_mem_id {α : Type} {l : List α} {f : α → α}
    (h : ∀ a ∈ l, f a = a) : l.map f = l := by
  induction l with
  | nil => rfl
  | cons a t ih =>
    rw [List.map_cons, h a (List.mem_cons_self a t),
      ih fun b hb => h b (List.mem_cons_of_mem a hb)]

theorem resizeBuildModeField_preserves (fields : List BuildModeField)
    (fieldId : String) (w h : ℚ) (S : List String)
    (hinv : ∀ f ∈ fields, f.id ∈ S → 20 ≤ f.width ∧ 20 ≤ f.height) :
    ∀ f ∈ resizeBuildModeField fields fieldId w h,
      f.id ∈ fieldId :: S → 20 ≤ f.width ∧ 20 ≤ f.height := by
  intro f hf hmem
  simp only [resizeBuildModeField, List.mem_map] at hf
  obtain ⟨g, hg, rfl⟩ := hf
  by_cases hcase : g.id = fieldId
  · rw [if_pos hcase]
    exact ⟨le_max_left _ _, le_max_left _ _⟩
  · rw [if_neg hcase] at hmem ⊢
    rcases List.mem_cons.mp hmem with h1 | h1
    · exact absurd h1 hcase
    · exact hinv g hg h1

theorem applyResizeOps_floor_aux :
    ∀ (ops : List (String × ℚ × ℚ)) (S : List String)
      (fields : List BuildModeField),
      (∀ f ∈ fields, f.id ∈ S → 20 ≤ f.width ∧ 20 ≤ f.height) →
      ∀ f ∈ applyResizeOps ops fields,
        (f.id ∈ S ∨ ∃ op ∈ ops, op.1 = f.id) →
        20 ≤ f.width ∧ 20 ≤ f.height := by
  intro ops
  induction ops with
  | nil =>
    intro S fields hinv f hf hcase
    simp only [applyResizeOps, List.foldl_nil] at hf
    rcases hcase with h | ⟨op, hop, _⟩
    · exact hinv f hf h
    · exact absurd hop (List.not_mem_nil op)
  | cons op rest ih =>
    intro S fields hinv f hf hcase
    rw [applyResizeOps, List.foldl_cons] at hf
    refine ih (op.1 :: S) _
      (resizeBuildModeField_preserves fields op.1 op.2.1 op.2.2 S hinv) f hf ?_
    rcases hcase with h | ⟨op', hop', heq⟩
    · exact Or.inl (List.mem_cons_of_mem _ h)
    · rcases List.mem_cons.mp hop' with rfl | h1
      · exact Or.inl (heq ▸ List.mem_cons_self _ _)
      · exact Or.inr ⟨op', h1, heq⟩

theorem seedFromExisting_of_nonempty (pages : List PageData)
    (extracted : Option AssignmentMap) {fields : List BuildModeField}
    (h : 0 < fields.length) :
    seedFromExisting pages extracted fields = fields := by
  unfold seedFromExisting
  rw [if_pos h]

/-! ### Claim theorems -/

/-- C3: every field targeted by some operation of a sequence of resize
operations applied through `resizeBuildModeField` satisfies
`width ≥ 20 ∧ height ≥ 20` afterwards (requested values below the floor
are clamped up to 20). -/
theorem resize_floor_invariant (ops : List (String × ℚ × ℚ))
    (fields : List BuildModeField) :
    ∀ f ∈ applyResizeOps ops fields,
      (∃ op ∈ ops, op.1 = f.id) → 20 ≤ f.width ∧ 20 ≤ f.height :=
  fun f hf hop =>
    applyResizeOps_floor_aux ops [] fields (by simp) f hf (Or.inr hop)

/-- Witness for C3: resizing the sample field to a requested 5 × 100
clamps the width up to the floor. -/
theorem resize_floor_invariant_witness :
    resizedSampleField ∈ applyResizeOps [("a", 5, 100)] [sampleField] ∧
    (∃ op ∈ [(("a" : String), (5 : ℚ), (100 : ℚ))], op.1 = resizedSampleField.id) ∧
    20 ≤ resizedSampleField.width ∧ 20 ≤ resizedSampleField.height :=
  ⟨by decide, by decide,
    resize_floor_invariant [("a", 5, 100)] [sampleField] resizedSampleField
      (by decide) (by decide)⟩

/-- C9: registry constraint violations are clamped or no-ops, never
errors (all operations are total): a move clamps both coordinates to
`≥ 0`, a resize clamps both extents to `≥ 20`, and a move, resize or
update addressed to an unknown field id leaves the field collection
unchanged. -/
theorem constraint_violations_clamp_or_noop
    (fields : List BuildModeField) (fieldId : String) (x y w h : ℚ)
    (u : BuildModeFieldUpdate) :
    (∀ f ∈ moveBuildModeField fields fieldId x y, f.id = fieldId →
        f.x = max 0 x ∧ f.y = max 0 y ∧ 0 ≤ f.x ∧ 0 ≤ f.y) ∧
    (∀ f ∈ resizeBuildModeField fields fieldId w h, f.id = fieldId →
        f.width = max 20 w ∧ f.height = max 20 h ∧
          20 ≤ f.width ∧ 20 ≤ f.height) ∧
    ((∀ f ∈ fields, f.id ≠ fieldId) →
        moveBuildModeField fields fieldId x y = fields ∧
        resizeBuildModeField fields fieldId w h = fields ∧
        updateBuildModeField fields fieldId u = fields) := by
  refine ⟨?_, ?_, ?_⟩
  · intro f hf hid
    simp only [moveBuildModeField, List.mem_map] at hf
    obtain ⟨g, hg, rfl⟩ := hf
    by_cases hcase : g.id = fieldId
    · rw [if_pos hcase]
      exact ⟨rfl, rfl, le_max_left _ _, le_max_left _ _⟩
    · rw [if_neg hcase] at hid
      exact absurd hid hcase
  · intro f hf hid
    simp only [resizeBuildModeField, List.mem_map] at hf
    obtain ⟨g, hg, rfl⟩ := hf
    by_cases hcase : g.id = fieldId
    · rw [if_pos hcase]
      exact ⟨rfl, rfl, le_max_left _ _, le_max_left _ _⟩
    · rw [if_neg hcase] at hid
      exact absurd hid hcase
  · intro hunknown
    refine ⟨map_mem_id ?_, map_mem_id ?_, map_mem_id ?_⟩ <;>
      exact fun f hf => if_neg (hunknown f hf)

/-- Witness for C9: a move to (-5, -7) clamps to (0, 0), and operations
on the unknown id "zzz" leave the registry untouched. -/
theorem constraint_violations_witness :
    (movedSampleField.x = max 0 (-5) ∧ movedSampleField.y = max 0 (-7) ∧
      0 ≤ movedSampleField.x ∧ 0 ≤ movedSampleField.y) ∧
    (moveBuildModeField [sampleField] "zzz" 1 2 = [sampleField] ∧
      resizeBuildModeField [sampleField] "zzz" 1 2 = [sampleField] ∧
      updateBuildModeField [sampleField] "zzz" siblingUpdate = [sampleField]) :=
  ⟨(constraint_violations_clamp_or_noop [sampleField] "a" (-5) (-7) 1 2
      siblingUpdate).1 movedSampleField (by decide) (by decide),
    (constraint_violations_clamp_or_noop [sampleField] "zzz" 1 2 1 2
      siblingUpdate).2.2 (by decide)⟩

/-- C4 counterexample: `updateBuildModeField` does not deep-merge the
`properties` sub-record — an update that sets only `fontSize` discards
the sibling `placeholder` entry, contrary to the claim. -/
theorem update_discards_sibling_properties :
    ¬ ∀ f ∈ updateBuildModeField [siblingField] "a" siblingUpdate,
        f.properties.placeholder = some "keep me" := by decide

/-- C4 (amended): `updateBuildModeField` shallow-merges the top-level
fields only; an update that supplies a `properties` record replaces the
entire sub-record (siblings survive only when `properties` is absent
from the update); an unknown id is a no-op. -/
theorem update_shallow_merge (fields : List BuildModeField)
    (fieldId : String) (u : BuildModeFieldUpdate) (f : BuildModeField)
    (p : FieldProperties) :
    (updateBuildModeField fields fieldId u
        = fields.map fun g => if g.id = fieldId then applyUpdate g u else g) ∧
    ((∀ g ∈ fields, g.id ≠ fieldId) →
        updateBuildModeField fields fieldId u = fields) ∧
    ((applyUpdate f u).name = u.name.getD f.name ∧
      (applyUpdate f u).x = u.x.getD f.x ∧
      (applyUpdate f u).y = u.y.getD f.y ∧
      (applyUpdate f u).width = u.width.getD f.width ∧
      (applyUpdate f u).height = u.height.getD f.height ∧
      (applyUpdate f u).page = u.page.getD f.page ∧
      (applyUpdate f u).properties = u.properties.getD f.properties) ∧
    (u.properties = some p → (applyUpdate f u).properties = p) ∧
    (u.properties = none → (applyUpdate f u).properties = f.properties) := by
  refine ⟨rfl, ?_, ⟨rfl, rfl, rfl, rfl, rfl, rfl, rfl⟩, ?_, ?_⟩
  · intro hunknown
    exact map_mem_id fun g hg => if_neg (hunknown g hg)
  · intro hsome
    simp [applyUpdate, hsome]
  · intro hnone
    simp [applyUpdate, hnone]

/-- Witness for C4 (amended): the unknown id "zzz" is a no-op, and the
update's `properties` record replaces the sub-record wholesale. -/
theorem update_shallow_merge_witness :
    updateBuildModeField [siblingField] "zzz" siblingUpdate = [siblingField] ∧
    (applyUpdate siblingField siblingUpdate).properties
      = { fontSize := some 14 } :=
  ⟨(update_shallow_merge [siblingField] "zzz" siblingUpdate siblingField
      { fontSize := some 14 }).2.1 (by decide),
    (update_shallow_merge [siblingField] "zzz" siblingUpdate siblingField
      { fontSize := some 14 }).2.2.2.1 rfl⟩

/-- C5: the seeding effect is a no-op on a non-empty registry, so running
it twice in a row equals running it once. -/
theorem seeding_idempotent (pages : List PageData)
    (extracted : Option AssignmentMap) (fields : List BuildModeField) :
    (0 < fields.length → seedFromExisting pages extracted fields = fields) ∧
    seedFromExisting pages extracted (seedFromExisting pages extracted fields)
      = seedFromExisting pages extracted fields := by
  refine ⟨fun h => seedFromExisting_of_nonempty pages extracted h, ?_⟩
  by_cases h : 0 < fields.length
  · rw [seedFromExisting_of_nonempty pages extracted h,
      seedFromExisting_of_nonempty pages extracted h]
  · have hinner : seedFromExisting pages extracted fields
        = if 0 < (buildInitialFields extracted pages).length then
            buildInitialFields extracted pages
          else fields := by
      unfold seedFromExisting
      rw [if_neg h]
    by_cases hi : 0 < (buildInitialFields extracted pages).length
    · rw [hinner, if_pos hi, seedFromExisting_of_nonempty pages extracted hi]
    · rw [hinner, if_neg hi, hinner, if_neg hi]

/-- Witness for C5: seeding a one-field registry changes nothing. -/
theorem seeding_idempotent_witness :
    seedFromExisting [] none [sampleField] = [sampleField] :=
  (seeding_idempotent [] none [sampleField]).1 (by decide)

/-- C7: effective interaction state in edit mode — no active participant
or no assignment entry for the field means editable; an entry not
containing the participant means hidden under the `hidden` policy and
visible-but-disabled under `readonly`; and the map extracted from the
document metadata takes precedence over the caller-supplied one. -/
theorem assignment_enforcement (policy : UnassignedVisibility)
    (fieldName : String) :
    (∀ effective : Option AssignmentMap,
        fieldInteractionState none effective policy fieldName = .editable) ∧
    (∀ (pid : String) (effective : Option AssignmentMap),
        (effective.bind fun m => m.lookup fieldName) = none →
        fieldInteractionState (some pid) effective policy fieldName
          = .editable) ∧
    (∀ (pid : String) (effective : Option AssignmentMap)
        (assignedIds : List String),
        (effective.bind fun m => m.lookup fieldName) = some assignedIds →
        pid ∉ assignedIds →
        fieldInteractionState (some pid) effective policy fieldName
          = match policy with
            | .hidden => .hidden
            | .readonly => .disabled) ∧
    (∀ (m : AssignmentMap) (supplied : Option AssignmentMap),
        effectiveAssignmentMap (some m) supplied = some m) := by
  refine ⟨fun _ => rfl, ?_, ?_, fun _ _ => rfl⟩
  · intro pid effective h
    simp [fieldInteractionState, h]
  · intro pid effective assignedIds h hnot
    simp [fieldInteractionState, h, hnot]

/-- Witness for C7: field "rent" assigned only to participant "1";
participant "2" sees it hidden under the `hidden` policy, while no
participant or no entry means editable, and extraction wins over the
prop. -/
theorem assignment_enforcement_witness :
    fieldInteractionState none (some [("rent", ["1"])]) .hidden "rent"
      = .editable ∧
    fieldInteractionState (some "2") none .hidden "rent" = .editable ∧
    fieldInteractionState (some "2") (some [("rent", ["1"])]) .hidden "rent"
      = .hidden ∧
    effectiveAssignmentMap (some [("rent", ["1"])]) (some [("rent", ["2"])])
      = some [("rent", ["1"])] :=
  ⟨(assignment_enforcement .hidden "rent").1 (some [("rent", ["1"])]),
    (assignment_enforcement .hidden "rent").2.1 "2" none rfl,
    (assignment_enforcement .hidden "rent").2.2.1 "2"
      (some [("rent", ["1"])]) ["1"] rfl (by decide),
    (assignment_enforcement .hidden "rent").2.2.2 [("rent", ["1"])]
      (some [("rent", ["2"])])⟩

theorem key_mem_setKey {α : Type} (acc : List (String × α)) (k : String)
    (v : α) (n : String) :
    (∃ e ∈ setKey acc k v, e.1 = n) ↔ (∃ e ∈ acc, e.1 = n) ∨ k = n := by
  unfold setKey
  split_ifs with hany
  · constructor
    · rintro ⟨e, he, hen⟩
      rw [List.mem_map] at he
      obtain ⟨p, hp, rfl⟩ := he
      by_cases hpk : p.1 = k
      · rw [if_pos hpk] at hen
        exact Or.inr hen
      · rw [if_neg hpk] at hen
        exact Or.inl ⟨p, hp, hen⟩
    · intro hcase
      rcases hcase with ⟨e, he, hen⟩ | rfl
      · by_cases hek : e.1 = k
        · refine ⟨(k, v), List.mem_map.mpr ⟨e, he, by rw [if_pos hek]⟩, ?_⟩
          rw [← hek, hen]
        · exact ⟨e, List.mem_map.mpr ⟨e, he, by rw [if_neg hek]⟩, hen⟩
      · rw [List.any_eq_true] at hany
        obtain ⟨p, hp, hpk⟩ := hany
        have hpk' : p.1 = k := by simpa using hpk
        exact ⟨(k, v), List.mem_map.mpr ⟨p, hp, by rw [if_pos hpk']⟩, rfl⟩
  · constructor
    · rintro ⟨e, he, hen⟩
      rcases List.mem_append.mp he with h1 | h1
      · exact Or.inl ⟨e, h1, hen⟩
      · rw [List.mem_singleton] at h1
        subst h1
        exact Or.inr hen
    · intro hcase
      rcases hcase with ⟨e, he, hen⟩ | rfl
      · exact ⟨e, List.mem_append_left _ he, hen⟩
      · exact ⟨(k, v), List.mem_append_right _ (List.mem_singleton_self _), rfl⟩

theorem key_mem_assign_foldl (fields : List BuildModeField) :
    ∀ (acc : AssignmentMap) (n : String),
      (∃ e ∈ fields.foldl
          (fun acc field =>
            match field.properties.assignees with
            | some assignees =>
              if assignees.length > 0 then setKey acc field.name assignees
              else acc
            | none => acc)
          acc, e.1 = n) ↔
        (∃ e ∈ acc, e.1 = n) ∨
          ∃ f ∈ fields, f.name = n ∧
            ∃ l, f.properties.assignees = some l ∧ l ≠ [] := by
  induction fields with
  | nil =>
    intro acc n
    simp
  | cons f t ih =>
    intro acc n
    rw [List.foldl_cons, ih]
    have hstep :
        (∃ e ∈ (match f.properties.assignees with
            | some assignees =>
              if assignees.length > 0 then setKey acc f.name assignees
              else acc
            | none => acc), e.1 = n) ↔
          (∃ e ∈ acc, e.1 = n) ∨
            (f.name = n ∧ ∃ l, f.properties.assignees = some l ∧ l ≠ []) := by
      cases hass : f.properties.assignees with
      | none => simp [hass]
      | some l =>
        have hred :
            (match some l with
              | some assignees =>
                if assignees.length > 0 then setKey acc f.name assignees
                else acc
              | none => acc)
              = if l.length > 0 then setKey acc f.name l else acc := rfl
        rw [hred]
        by_cases hl : l.length > 0
        · rw [if_pos hl, key_mem_setKey]
          have hne : l ≠ [] := List.length_pos.mp hl
          constructor
          · rintro (h | rfl)
            · exact Or.inl h
            · exact Or.inr ⟨rfl, l, rfl, hne⟩
          · rintro (h | ⟨rfl, _⟩)
            · exact Or.inl h
            · exact Or.inr rfl
        · rw [if_neg hl]
          have hle : l = [] := by
            rcases List.eq_nil_or_concat l with h | ⟨t', a, rfl⟩
            · exact h
            · exact absurd (by simp) hl
          constructor
          · exact Or.inl
          · rintro (h | ⟨_, l', hl', hne⟩)
            · exact h
            · cases hl'
              exact absurd hle hne
    rw [hstep]
    constructor
    · rintro ((h | h) | ⟨g, hg, hrest⟩)
      · exact Or.inl h
      · exact Or.inr ⟨f, List.mem_cons_self f t, h⟩
      · exact Or.inr ⟨g, List.mem_cons_of_mem f hg, hrest⟩
    · rintro (h | ⟨g, hg, hrest⟩)
      · exact Or.inl (Or.inl h)
      · rcases List.mem_cons.mp hg with rfl | hgt
        · exact Or.inl (Or.inr hrest)
        · exact Or.inr ⟨g, hgt, hrest⟩

theorem lookup_eq_none_of_no_key (m : AssignmentMap) (n : String)
    (h : ∀ e ∈ m, e.1 ≠ n) : m.lookup n = none := by
  induction m with
  | nil => rfl
  | cons kv t ih =>
    obtain ⟨k, v⟩ := kv
    have hk : k ≠ n := h (k, v) (List.mem_cons_self _ _)
    have hbeq : (n == k) = false :=
      beq_eq_false_iff_ne.mpr fun hnk => hk hnk.symm
    rw [List.lookup, hbeq]
    exact ih fun e he => h e (List.mem_cons_of_mem _ he)

/-- C10: the assignment map persisted at build-mode export holds exactly
the field names whose assignees list is present and non-empty; a field
omitted from the map (in particular one with an explicitly empty
assignees list) resolves to editable for every participant on reload. -/
theorem exported_assignments_domain (fields : List BuildModeField)
    (n : String) :
    ((∃ e ∈ buildFieldAssignmentsMap fields, e.1 = n) ↔
      ∃ f ∈ fields, f.name = n ∧
        ∃ l, f.properties.assignees = some l ∧ l ≠ []) ∧
    ((∀ f ∈ fields, f.name = n →
        f.properties.assignees = some [] ∨ f.properties.assignees = none) →
      ∀ (pid : String) (policy : UnassignedVisibility),
        fieldInteractionState (some pid)
          (some (buildFieldAssignmentsMap fields)) policy n = .editable) := by
  have hdom := key_mem_assign_foldl fields [] n
  simp only [List.not_mem_nil, false_and, exists_false, false_or] at hdom
  refine ⟨hdom, ?_⟩
  intro hnone pid policy
  have hnokey : ∀ e ∈ buildFieldAssignmentsMap fields, e.1 ≠ n := by
    intro e he hen
    obtain ⟨f, hf, _, l, hl, hlne⟩ := hdom.mp ⟨e, he, hen⟩
    rcases hnone f hf (by assumption) with h | h
    · rw [h] at hl
      cases hl
      exact hlne rfl
    · rw [h] at hl
      cases hl
  have hlookup : (buildFieldAssignmentsMap fields).lookup n = none :=
    lookup_eq_none_of_no_key _ n hnokey
  simp [fieldInteractionState, hlookup]

/-- Witness for C10: a registry with one assigned field and one with an
explicitly empty assignees list — only the former is in the map, and the
latter stays editable for everyone. -/
theorem exported_assignments_domain_witness :
    (∃ e ∈ buildFieldAssignmentsMap [keptField, droppedField], e.1 = "kept") ∧
    fieldInteractionState (some "2")
      (some (buildFieldAssignmentsMap [keptField, droppedField])) .hidden
        "dropped" = .editable :=
  ⟨(exported_assignments_domain [keptField, droppedField] "kept").1.mpr
      ⟨keptField, List.mem_cons_self _ _, rfl, ["2"], rfl, by decide⟩,
    (exported_assignments_domain [keptField, droppedField] "dropped").2
      (by decide) "2" .hidden⟩

/-- C8 counterexample: with no assignment map at all, `getProgressData`
counts every document field as assigned, but the `ProgressPanel`'s own
accounting produces no assigned fields — so "assigned fields equals
every field when no map exists" is false for the cited panel code. -/
theorem panel_no_map_assigned_empty :
    assignedFieldNames [("rent", "")] none (some "1") = ["rent"] ∧
    panelAssignedFields none "1" = [] ∧
    ([] : List String) ≠ ["rent"] :=
  ⟨rfl, rfl, by decide⟩

/-- C8 (amended): `getProgressData`'s assigned fields are the names whose
assignment set contains the active participant, falling back to every
document field when no effective map exists; the `ProgressPanel` uses
the same filter when a map is provided but treats a missing map as no
assigned fields; completion is non-empty ∧ non-whitespace ∧ not
"Off". -/
theorem progress_accounting (formFields : FormFields) (m : AssignmentMap)
    (pid : String) (v : String) (n : String) :
    (n ∈ assignedFieldNames formFields (some m) (some pid) ↔
      ∃ e ∈ m, e.1 = n ∧ pid ∈ e.2) ∧
    (assignedFieldNames formFields none (some pid)
      = formFields.map fun e => e.1) ∧
    (panelAssignedFields (some m) pid
      = assignedFieldNames formFields (some m) (some pid)) ∧
    (panelAssignedFields none pid = []) ∧
    (getProgressData formFields (some m) (some pid)
      = ((assignedFieldNames formFields (some m) (some pid)).length,
        ((assignedFieldNames formFields (some m) (some pid)).filter fun k =>
          isCompletedValue (formFields.lookup k)).length)) ∧
    (isCompletedValue none = false) ∧
    (isCompletedValue (some v) = true ↔
      v ≠ "" ∧ jsTrim v.data ≠ [] ∧ v ≠ "Off") := by
  refine ⟨?_, rfl, rfl, rfl, rfl, rfl, ?_⟩
  · simp only [assignedFieldNames, List.mem_map, List.mem_filter]
    constructor
    · rintro ⟨e, ⟨hem, hc⟩, rfl⟩
      exact ⟨e, hem, rfl, List.elem_iff.mp hc⟩
    · rintro ⟨e, hem, rfl, hpid⟩
      exact ⟨e, ⟨hem, List.elem_iff.mpr hpid⟩, rfl⟩
  · simp [isCompletedValue, and_assoc]

/-- C6 counterexample: the spec's scenario field is the dropped default
`text` field (height 16), and with `dy = 0` the new height 16 fails the
`newWidth ≥ 20 && newHeight ≥ 20` gate, so the bottomLeft `dx = -30`
frame is rejected — the field keeps `width = 115`, `x = 50` instead of
the claimed `width = 145`, `x = 20`. -/
theorem bottomLeft_scenario_rejected :
    resizeFrame .bottomLeft sampleFrame (-30) 0 = none ∧
    applyResizeFrame [sampleField] "a" .bottomLeft sampleFrame (-30) 0
      = [sampleField] := by
  have hcond : ¬((20 : ℚ) ≤ 115 - -30 ∧ (20 : ℚ) ≤ 16 + 0) := by norm_num
  constructor
  · simp only [resizeFrame, computeResizeFrame, sampleFrame]
    rw [if_neg hcond]
  · simp only [applyResizeFrame, computeResizeFrame, sampleFrame]
    rw [if_neg hcond]

/-- C6 (amended): per-handle resize rules — `bottomRight` changes only
the extents; `bottomLeft` applies `width -= dx`, `x += dx` (and
`height += dy`); `topRight` applies `height -= dy`, `y += dy` (and
`width += dx`); `topLeft` both; a frame is applied only when both new
extents stay ≥ 20, else rejected with movement still tracked from the
gesture start.  The scenario `x=50, width=115`, bottomLeft, `dx=-30`
yields `width=145, x=20` with `y`/`height` unchanged provided the
field's height is at least the 20-unit floor. -/
theorem resize_handle_rules (s : FieldFrame) (dx dy : ℚ) :
    (resizeFrame .bottomRight s dx dy
      = if 20 ≤ s.width + dx ∧ 20 ≤ s.height + dy then
          some { x := s.x, y := s.y, width := s.width + dx,
                 height := s.height + dy }
        else none) ∧
    (resizeFrame .bottomLeft s dx dy
      = if 20 ≤ s.width - dx ∧ 20 ≤ s.height + dy then
          some { x := s.x + dx, y := s.y, width := s.width - dx,
                 height := s.height + dy }
        else none) ∧
    (resizeFrame .topRight s dx dy
      = if 20 ≤ s.width + dx ∧ 20 ≤ s.height - dy then
          some { x := s.x, y := s.y + dy, width := s.width + dx,
                 height := s.height - dy }
        else none) ∧
    (resizeFrame .topLeft s dx dy
      = if 20 ≤ s.width - dx ∧ 20 ≤ s.height - dy then
          some { x := s.x + dx, y := s.y + dy, width := s.width - dx,
                 height := s.height - dy }
        else none) ∧
    (∀ y h : ℚ, 20 ≤ h →
      resizeFrame .bottomLeft
          { x := 50, y := y, width := 115, height := h } (-30) 0
        = some { x := 20, y := y, width := 145, height := h }) := by
  refine ⟨rfl, rfl, rfl, rfl, ?_⟩
  intro y h hh
  simp only [resizeFrame, computeResizeFrame]
  have hcond : (20 : ℚ) ≤ 115 - -30 ∧ (20 : ℚ) ≤ h + 0 :=
    ⟨by norm_num, by linarith⟩
  rw [if_pos hcond]
  norm_num

/-- Witness for C6 (amended): a field with height exactly at the floor
resizes as the scenario describes. -/
theorem resize_handle_rules_witness :
    (20 : ℚ) ≤ 20 ∧
    resizeFrame .bottomLeft
        { x := 50, y := 50, width := 115, height := 20 } (-30) 0
      = some { x := 20, y := 50, width := 145, height := 20 } :=
  ⟨by norm_num,
    (resize_handle_rules ⟨0, 0, 0, 0⟩ 0 0).2.2.2.2 50 20 (by norm_num)⟩

theorem abs_jsRound_sub_le (q : ℚ) : |(jsRound q : ℚ) - q| ≤ 1 / 2 := by
  have h1 : ((⌊q + 1 / 2⌋ : ℤ) : ℚ) ≤ q + 1 / 2 := Int.floor_le _
  have h2 : q + 1 / 2 < (⌊q + 1 / 2⌋ : ℤ) + 1 := Int.lt_floor_add_one _
  unfold jsRound
  rw [abs_le]
  constructor <;> linarith

/-- C1: exporting a field's rectangle to document-native space and
re-importing it through the existing-field seeding path recovers each of
`x`, `y`, `width`, `height` within one unit. -/
theorem geometry_round_trip (pageHeight : ℚ) (pageNumber : ℤ)
    (extracted : Option AssignmentMap) (f : BuildModeField) (raw : RawField)
    (hrect : raw.rect = exportFieldRect pageHeight f) :
    |(seedFieldOfRaw pageHeight pageNumber extracted raw).x - f.x| ≤ 1 ∧
    |(seedFieldOfRaw pageHeight pageNumber extracted raw).y - f.y| ≤ 1 ∧
    |(seedFieldOfRaw pageHeight pageNumber extracted raw).width - f.width|
      ≤ 1 ∧
    |(seedFieldOfRaw pageHeight pageNumber extracted raw).height - f.height|
      ≤ 1 := by
  have hx := abs_jsRound_sub_le f.x
  have hy := abs_jsRound_sub_le (pageHeight - f.y - f.height)
  have hw := abs_jsRound_sub_le f.width
  have hh := abs_jsRound_sub_le f.height
  have hgx : (seedFieldOfRaw pageHeight pageNumber extracted raw).x
      = raw.rect.llx := rfl
  have hgy : (seedFieldOfRaw pageHeight pageNumber extracted raw).y
      = pageHeight - raw.rect.ury := rfl
  have hgw : (seedFieldOfRaw pageHeight pageNumber extracted raw).width
      = raw.rect.urx - raw.rect.llx := rfl
  have hgh : (seedFieldOfRaw pageHeight pageNumber extracted raw).height
      = raw.rect.ury - raw.rect.lly := rfl
  have hllx : raw.rect.llx = (jsRound f.x : ℚ) := by rw [hrect]; rfl
  have hlly : raw.rect.lly
      = (jsRound (pageHeight - f.y - f.height) : ℚ) := by rw [hrect]; rfl
  have hurx : raw.rect.urx
      = (jsRound f.x : ℚ) + (jsRound f.width : ℚ) := by rw [hrect]; rfl
  have hury : raw.rect.ury
      = (jsRound (pageHeight - f.y - f.height) : ℚ)
        + (jsRound f.height : ℚ) := by rw [hrect]; rfl
  rw [abs_le] at hx hy hw hh
  refine ⟨?_, ?_, ?_, ?_⟩ <;> rw [abs_le]
  · rw [hgx, hllx]
    constructor <;> linarith
  · rw [hgy, hury]
    constructor <;> linarith
  · rw [hgw, hurx, hllx]
    constructor <;> linarith
  · rw [hgh, hury, hlly]
    constructor <;> linarith

/-- Witness for C1: the sample text field on a 792-high page survives the
round trip within one unit. -/
theorem geometry_round_trip_witness :
    |(seedFieldOfRaw 792 1 none sampleRaw).x - sampleField.x| ≤ 1 ∧
    |(seedFieldOfRaw 792 1 none sampleRaw).y - sampleField.y| ≤ 1 ∧
    |(seedFieldOfRaw 792 1 none sampleRaw).width - sampleField.width| ≤ 1 ∧
    |(seedFieldOfRaw 792 1 none sampleRaw).height - sampleField.height| ≤ 1 :=
  geometry_round_trip 792 1 none sampleField sampleRaw rfl

theorem hexDigitVal_toHexDigitChar (n : Nat) (h : n < 16) :
    hexDigitVal (toHexDigitChar n) = some n := by
  interval_cases n <;> decide

theorem parseStringBody_escape (c : Char) (acc rest : List Char) :
    parseStringBody acc (escapeChar c ++ rest)
      = parseStringBody (c :: acc) rest := by
  unfold escapeChar
  split_ifs with h1 h2 h3 h4 h5 h6 h7 h8
  · subst h1; rfl
  · subst h2; rfl
  · subst h3; rfl
  · subst h4; rfl
  · subst h5; rfl
  · subst h6; rfl
  · subst h7; rfl
  · have hd1 : hexDigitVal (toHexDigitChar (c.toNat / 16))
        = some (c.toNat / 16) := hexDigitVal_toHexDigitChar _ (by omega)
    have hd2 : hexDigitVal (toHexDigitChar (c.toNat % 16))
        = some (c.toNat % 16) :=
      hexDigitVal_toHexDigitChar _ (Nat.mod_lt _ (by norm_num))
    have harith :
        ((0 * 16 + 0) * 16 + c.toNat / 16) * 16 + c.toNat % 16 = c.toNat := by
      omega
    simp only [List.cons_append]
    rw [parseStringBody]
    simp only [hd1, hd2]
    rw [show hexDigitVal '0' = some 0 from rfl]
    simp only [harith, Char.ofNat_toNat, List.nil_append]
  · simp only [List.cons_append, List.nil_append]
    rw [parseStringBody.eq_def]
    simp [h1, h2]

theorem parseStringBody_flatMap (cs : List Char) :
    ∀ (acc rest : List Char),
      parseStringBody acc (cs.flatMap escapeChar ++ '"' :: rest)
        = some (acc.reverse ++ cs, rest) := by
  induction cs with
  | nil =>
    intro acc rest
    simp [parseStringBody]
  | cons c cs ih =>
    intro acc rest
    rw [List.flatMap_cons, List.append_assoc, parseStringBody_escape, ih]
    simp

theorem parseJString_serialize (s : String) (rest : List Char) :
    parseJString (serializeJString s ++ rest) = some (s, rest) := by
  have h : serializeJString s ++ rest
      = '"' :: (s.data.flatMap escapeChar ++ '"' :: rest) := by
    simp [serializeJString]
  rw [h]
  show (parseStringBody [] (s.data.flatMap escapeChar ++ '"' :: rest)).map
      (fun p => (String.mk p.1, p.2)) = some (s, rest)
  rw [parseStringBody_flatMap]
  rfl

theorem parseItems1_serialize (t : List String) :
    ∀ (s : String) (rest : List Char) (fuel : Nat),
      t.length ≤ fuel →
      parseItems1 fuel (serializeItemsTail (s :: t) ++ rest)
        = some (s :: t, rest) := by
  induction t with
  | nil =>
    intro s rest fuel _
    have h : serializeItemsTail [s] ++ rest
        = serializeJString s ++ (']' :: rest) := by
      simp [serializeItemsTail]
    rw [parseItems1, h, parseJString_serialize]
    rfl
  | cons s2 t2 ih =>
    intro s rest fuel hfuel
    obtain ⟨fuel', rfl⟩ : ∃ k, fuel = k + 1 :=
      ⟨fuel - 1, by simp at hfuel; omega⟩
    have h : serializeItemsTail (s :: s2 :: t2) ++ rest
        = serializeJString s
            ++ (',' :: (serializeItemsTail (s2 :: t2) ++ rest)) := by
      simp [serializeItemsTail]
    rw [parseItems1, h, parseJString_serialize]
    show (parseItems1 fuel' (serializeItemsTail (s2 :: t2) ++ rest)).bind
        (fun lr => some (s :: lr.1, lr.2)) = some (s :: s2 :: t2, rest)
    rw [ih s2 rest fuel' (by simp at hfuel; omega)]
    rfl

theorem parseItems_serialize (v : List String) (rest : List Char)
    (fuel : Nat) (h : v.length ≤ fuel + 1) :
    parseItems fuel (serializeItemsTail v ++ rest) = some (v, rest) := by
  cases v with
  | nil => rfl
  | cons s t =>
    obtain ⟨X, hX⟩ : ∃ X, serializeItemsTail (s :: t) ++ rest = '"' :: X := by
      cases t <;> simp [serializeItemsTail, serializeJString]
    have hstep : parseItems fuel (serializeItemsTail (s :: t) ++ rest)
        = parseItems1 fuel (serializeItemsTail (s :: t) ++ rest) := by
      rw [hX]
      rfl
    rw [hstep]
    exact parseItems1_serialize t s rest fuel (by simp at h; omega)

theorem two_le_length_serializeJString (s : String) :
    2 ≤ (serializeJString s).length := by
  simp [serializeJString]

theorem length_le_serializeItemsTail (v : List String) :
    v.length ≤ (serializeItemsTail v).length := by
  induction v with
  | nil => simp [serializeItemsTail]
  | cons s t ih =>
    cases t with
    | nil =>
      have := two_le_length_serializeJString s
      simp [serializeItemsTail]
    | cons s2 t2 =>
      have := two_le_length_serializeJString s
      simp [serializeItemsTail] at ih ⊢
      omega

theorem parseMembers1_serialize (t : AssignmentMap) :
    ∀ (k : String) (v : List String) (rest : List Char) (fuel : Nat),
      t.length ≤ fuel →
      parseMembers1 fuel (serializeMembersTail ((k, v) :: t) ++ rest)
        = some ((k, v) :: t, rest) := by
  induction t with
  | nil =>
    intro k v rest fuel _
    have h : serializeMembersTail [(k, v)] ++ rest
        = serializeJString k
            ++ (':' :: '[' :: (serializeItemsTail v ++ '\x7d' :: rest)) := by
      simp [serializeMembersTail]
    rw [parseMembers1, h, parseJString_serialize]
    simp only [Option.some_bind]
    rw [parseItems_serialize v ('\x7d' :: rest) _
      (le_trans (length_le_serializeItemsTail v)
        (by simp only [List.length_append, List.length_cons]; omega))]
    simp only [Option.some_bind]
  | cons e t2 ih =>
    intro k v rest fuel hfuel
    obtain ⟨k2, v2⟩ := e
    obtain ⟨fuel', rfl⟩ : ∃ f, fuel = f + 1 :=
      ⟨fuel - 1, by simp at hfuel; omega⟩
    have h : serializeMembersTail ((k, v) :: (k2, v2) :: t2) ++ rest
        = serializeJString k
            ++ (':' :: '[' :: (serializeItemsTail v
              ++ ',' :: (serializeMembersTail ((k2, v2) :: t2) ++ rest))) := by
      simp [serializeMembersTail]
    rw [parseMembers1, h, parseJString_serialize]
    simp only [Option.some_bind]
    rw [parseItems_serialize v
      (',' :: (serializeMembersTail ((k2, v2) :: t2) ++ rest)) _
      (le_trans (length_le_serializeItemsTail v)
        (by simp only [List.length_append, List.length_cons]; omega))]
    simp only [Option.some_bind]
    rw [ih k2 v2 rest fuel' (by simp at hfuel; omega)]
    rfl

theorem parseMembers_serialize (m : AssignmentMap) (rest : List Char)
    (fuel : Nat) (h : m.length ≤ fuel + 1) :
    parseMembers fuel (serializeMembersTail m ++ rest) = some (m, rest) := by
  cases m with
  | nil => rfl
  | cons e t =>
    obtain ⟨k, v⟩ := e
    obtain ⟨X, hX⟩ :
        ∃ X, serializeMembersTail ((k, v) :: t) ++ rest = '"' :: X := by
      cases t <;> simp [serializeMembersTail, serializeJString]
    have hstep : parseMembers fuel (serializeMembersTail ((k, v) :: t) ++ rest)
        = parseMembers1 fuel (serializeMembersTail ((k, v) :: t) ++ rest) := by
      rw [hX]
      rfl
    rw [hstep]
    exact parseMembers1_serialize t k v rest fuel (by simp at h; omega)

theorem length_le_serializeMembersTail (m : AssignmentMap) :
    m.length ≤ (serializeMembersTail m).length := by
  induction m with
  | nil => simp [serializeMembersTail]
  | cons e t ih =>
    obtain ⟨k, v⟩ := e
    cases t with
    | nil =>
      have := two_le_length_serializeJString k
      simp [serializeMembersTail]
      omega
    | cons e2 t2 =>
      obtain ⟨k2, v2⟩ := e2
      have h2 := two_le_length_serializeJString k
      have ih' := ih
      simp only [serializeMembersTail, List.length_append, List.length_cons]
      simp only [List.length_cons] at ih'
      omega

theorem parseAssignmentsJson_serialize (m : AssignmentMap) :
    parseAssignmentsJson (serializeAssignmentsJson m) = some m := by
  have hm : parseMembers (serializeMembersTail m).length
      (serializeMembersTail m) = some (m, []) := by
    have h := parseMembers_serialize m [] (serializeMembersTail m).length
      (le_trans (length_le_serializeMembersTail m) (by omega))
    rwa [List.append_nil] at h
  show parseAssignmentsJson ('\x7b' :: serializeMembersTail m) = some m
  simp only [parseAssignmentsJson]
  rw [hm]

/-- C2: the assignment-metadata round trip — decoding the encoded title
(fixed tag `REACT_PDF_EDITOR_ASSIGNMENTS:` followed by the serialized
map) recovers the map exactly; a title without the tag decodes to
"absent"; a tagged title whose remainder fails to parse also decodes to
"absent".  The decoder is a total function, so no case raises an
error. -/
theorem metadata_round_trip (m : AssignmentMap) (title rest : List Char) :
    (decodeAssignmentsTitle (encodeAssignmentsTitle m) = some m) ∧
    (title.take assignmentsTag.length ≠ assignmentsTag →
      decodeAssignmentsTitle title = none) ∧
    (title = assignmentsTag ++ rest → parseAssignmentsJson rest = none →
      decodeAssignmentsTitle title = none) := by
  refine ⟨?_, ?_, ?_⟩
  · unfold decodeAssignmentsTitle encodeAssignmentsTitle
    rw [List.take_left, if_pos rfl, List.drop_left]
    exact parseAssignmentsJson_serialize m
  · intro h
    unfold decodeAssignmentsTitle
    rw [if_neg h]
  · intro ht hp
    subst ht
    unfold decodeAssignmentsTitle
    rw [List.take_left, if_pos rfl, List.drop_left]
    exact hp

/-- Witness for C2: one assignment map survives the round trip; an
untagged title and a tagged-but-unparsable title both decode to none. -/
theorem metadata_round_trip_witness :
    decodeAssignmentsTitle (encodeAssignmentsTitle [("text_1", ["2"])])
      = some [("text_1", ["2"])] ∧
    decodeAssignmentsTitle "untitled".data = none ∧
    decodeAssignmentsTitle (assignmentsTag ++ "oops".data) = none :=
  ⟨(metadata_round_trip [("text_1", ["2"])] [] []).1,
    (metadata_round_trip [("text_1", ["2"])] "untitled".data []).2.1
      (by decide),
    (metadata_round_trip [("text_1", ["2"])]
      (assignmentsTag ++ "oops".data) "oops".data).2.2 rfl (by decide)⟩

end PdfEd
